import Mathlib

/-
Verification development for the `record-flags` repository.

The repository ships two JavaScript LWC sources:
  * `recordFlags` (the parent orchestrator, in the repository root file), and
  * `recordFlagFetcher` (the per-unit child component).
We shallowly embed both components as pure Lean functions over explicit
state records.  JavaScript strings are modelled as `List Char`; the
`JSON.stringify` calls that the code uses for error classification are
modelled by an explicit serializer over the flag structures, including the
escape sequences relevant to the fields involved.  Promise settlement is
modelled by an `Except` argument carrying either the resolved value or the
rejection; a `then`-handler that throws is routed to the chained `catch`,
exactly as the platform does.

Parts of the repository that are not JavaScript (the Apex classes
`RecordFlags.getFetchers` / `RecordFlags.invokeFetcher` and the HTML
templates) are absent from `src/`; where a definition depends on them it is
modelled from the spec and marked `Modelled from the spec:` in its doc
comment.
-/

deriving instance DecidableEq for Except

namespace RecordFlags

/-- JavaScript strings, modelled as their character lists. -/
abbrev JStr := List Char

/-- Coerce a Lean string literal to the `JStr` model. -/
def str (s : String) : JStr := s.data

/-- `begWith p s` holds when `p` occurs at the start of `s`
(the building block for substring search, mirroring `String.includes`). -/
def begWith : JStr → JStr → Bool
  | [], _ => true
  | _ :: _, [] => false
  | a :: p, b :: s => if a = b then begWith p s else false

/-- `hasSub p s` models JavaScript `s.includes(p)`: `p` occurs contiguously in `s`. -/
def hasSub (p : JStr) : JStr → Bool
  | [] => begWith p []
  | b :: s => begWith p (b :: s) || hasSub p s

/-- Split a string at newline characters (used to count the entries of the
coalesced error body). -/
def splitNL : JStr → List JStr
  | [] => [[]]
  | c :: t =>
    if c = '\n' then [] :: splitNL t
    else
      match splitNL t with
      | h :: rs => (c :: h) :: rs
      | [] => [[c]]

/-- Join strings with a newline between consecutive entries. -/
def joinNL : List JStr → JStr
  | [] => []
  | [x] => x
  | x :: y :: t => x ++ '\n' :: joinNL (y :: t)

/-- Lexicographic comparison of strings (by code point, as JavaScript's
`<` on strings behaves for the identifiers involved). -/
def lexLe : JStr → JStr → Bool
  | [], _ => true
  | _ :: _, [] => false
  | a :: s, b :: t => decide (a < b) || (a == b && lexLe s t)

/-- Pair each element of a list with its index, starting at `k`. -/
def withIdx (k : Nat) : List α → List (Nat × α)
  | [] => []
  | x :: t => (k, x) :: withIdx (k + 1) t

/-- Total indexing into a list. -/
def getAt : List α → Nat → Option α
  | [], _ => none
  | x :: _, 0 => some x
  | _ :: t, n + 1 => getAt t n

/-- Apply a function to the element at an index, if any. -/
def updAt : List α → Nat → (α → α) → List α
  | [], _, _ => []
  | x :: t, 0, g => g x :: t
  | x :: t, n + 1, g => x :: updAt t n g

/-- Decimal rendering of a natural number (for the generated `key_i` /
`button_i` identifiers). -/
def natToStr (n : Nat) : JStr := (Nat.repr n).data

/-! JSON serialization model (for the `JSON.stringify` classification calls).
Escapes are modelled for the characters that can occur in the fields
involved (quote, backslash, newline); other characters serialize as
themselves. -/

/-- JSON escape of one character. -/
def escChar (c : Char) : JStr :=
  if c = '\"' then ['\\', '\"']
  else if c = '\\' then ['\\', '\\']
  else if c = '\n' then ['\\', 'n']
  else [c]

/-- JSON escape of a string body. -/
def esc : JStr → JStr
  | [] => []
  | c :: t => escChar c ++ esc t

/-- JSON string literal: quoted escaped body. -/
def jsonStr (s : JStr) : JStr := '\"' :: esc s ++ ['\"']

/-- JSON value for a nullable string field (an Apex `null` serializes as
`null`). -/
def jsonOptStr : Option JStr → JStr
  | some s => jsonStr s
  | none => str "null"

/-- JSON boolean. -/
def jsonBool (b : Bool) : JStr := if b then str "true" else str "false"

/-- Comma-join of serialized items. -/
def joinComma : List JStr → JStr
  | [] => []
  | [x] => x
  | x :: y :: t => x ++ ',' :: joinComma (y :: t)

/-- JSON array. -/
def jsonArr (l : List JStr) : JStr := '[' :: joinComma l ++ [']']

/-! Data model of the flags exchanged between Apex and the LWCs. -/

/-- A button of a raw flag as returned by Apex (`RecordFlagButton`). -/
structure RawButton where
  name : JStr
  url : JStr
deriving DecidableEq

/-- A flag descriptor as returned by the Apex invocation
(`RecordFlag`: variant, header, body, buttons). -/
structure RawFlag where
  variant : JStr
  header : JStr
  body : Option JStr
  buttons : Option (List RawButton)
deriving DecidableEq

/-- A button after the child assigned its render key
(`button.key = "button_" + index2`). -/
structure AugButton where
  name : JStr
  url : JStr
  key : Option JStr
deriving DecidableEq

/-- A flag after the child's augmentation
(`{...value, key, showDetails, varientCSS, hasButtons, isClicked}`). -/
structure AugFlag where
  variant : JStr
  header : JStr
  body : Option JStr
  buttons : Option (List AugButton)
  key : JStr
  showDetails : Bool
  varientCSS : Option JStr
  hasButtons : Bool
  isClicked : Bool
deriving DecidableEq

/-- Serialization of a raw button. -/
def jsonRawButton (b : RawButton) : JStr :=
  str "\x7b\x22name\x22:" ++ jsonStr b.name ++ str ",\x22url\x22:" ++ jsonStr b.url ++ str "\x7d"

/-- Serialization of the optional `buttons` property of a raw flag: an
absent property is omitted by `JSON.stringify`. -/
def jsonRawButtonsField : Option (List RawButton) → JStr
  | none => []
  | some bs => str ",\x22buttons\x22:" ++ jsonArr (bs.map jsonRawButton)

/-- `JSON.stringify(value)` for a raw flag, in Apex field order. -/
def jsonRaw (v : RawFlag) : JStr :=
  str "\x7b\x22variant\x22:" ++ jsonStr v.variant
  ++ str ",\x22header\x22:" ++ jsonStr v.header
  ++ str ",\x22body\x22:" ++ jsonOptStr v.body
  ++ jsonRawButtonsField v.buttons
  ++ str "\x7d"

/-- Serialization of an augmented (keyed) button. -/
def jsonAugButton (b : AugButton) : JStr :=
  str "\x7b\x22name\x22:" ++ jsonStr b.name ++ str ",\x22url\x22:" ++ jsonStr b.url
  ++ str ",\x22key\x22:" ++ jsonOptStr b.key ++ str "\x7d"

/-- Serialization of the optional `buttons` property of an augmented flag. -/
def jsonAugButtonsField : Option (List AugButton) → JStr
  | none => []
  | some bs => str ",\x22buttons\x22:" ++ jsonArr (bs.map jsonAugButton)

/-- Serialization of the `varientCSS` property: the lookup
`varientCSS[value.variant]` yields `undefined` for an unknown variant and
`JSON.stringify` omits `undefined`-valued properties. -/
def jsonVarCSSField : Option JStr → JStr
  | none => []
  | some s => str ",\x22varientCSS\x22:" ++ jsonStr s

/-- `JSON.stringify` of an augmented flag, in property-insertion order:
the spread of the raw value first, then the added presentation fields. -/
def jsonAug (f : AugFlag) : JStr :=
  str "\x7b\x22variant\x22:" ++ jsonStr f.variant
  ++ str ",\x22header\x22:" ++ jsonStr f.header
  ++ str ",\x22body\x22:" ++ jsonOptStr f.body
  ++ jsonAugButtonsField f.buttons
  ++ str ",\x22key\x22:" ++ jsonStr f.key
  ++ str ",\x22showDetails\x22:" ++ jsonBool f.showDetails
  ++ jsonVarCSSField f.varientCSS
  ++ str ",\x22hasButtons\x22:" ++ jsonBool f.hasButtons
  ++ str ",\x22isClicked\x22:" ++ jsonBool f.isClicked
  ++ str "\x7d"

/-- `JSON.stringify(this.existingFlag)` for the parent's error-flag list. -/
def jsonAugList (l : List AugFlag) : JStr := '[' :: joinComma (l.map jsonAug) ++ [']']

/-- The marker substring both components search for with
`.includes("Component Error")`. -/
def ce : JStr := str "Component Error"

/-- The `varientCSS` badge-class table of `recordFlagFetcher.js`; lookup of
an unknown variant yields `undefined` (`none`). -/
def varientCSSOf (v : JStr) : Option JStr :=
  if v = str "NORMAL" then some (str "slds-badge slds-badge_inverse")
  else if v = str "SUCCESS" then some (str "slds-badge slds-theme_success")
  else if v = str "WARNING" then some (str "slds-badge slds-theme_warning")
  else if v = str "ERROR" then some (str "slds-badge slds-theme_error")
  else none

/-- The child's per-button key assignment
(`flag.buttons.forEach((button, index2) => button.key = "button_" + index2)`). -/
def keyButtons (i : Nat) : List RawButton → List AugButton
  | [] => []
  | b :: t => { name := b.name, url := b.url, key := some (str "button_" ++ natToStr i) } :: keyButtons (i + 1) t

/-- The augmentation of one raw flag performed inside `handleRecordFlags`:
spread the value, add `key`, `showDetails`, `varientCSS`, `hasButtons`
(note a present-but-empty buttons array is truthy), `isClicked`, and
key the buttons when present. -/
def mkFlag (value : RawFlag) (index : Nat) : AugFlag :=
  { variant := value.variant
    header := value.header
    body := value.body
    buttons := value.buttons.map (keyButtons 0)
    key := str "key_" ++ natToStr index
    showDetails := false
    varientCSS := varientCSSOf value.variant
    hasButtons := value.buttons.isSome
    isClicked := false }

/-- Drop a button's render key, recovering the raw button. -/
def stripButton (b : AugButton) : RawButton := { name := b.name, url := b.url }

/-- Drop the augmentation of a flag, recovering the raw value it came from. -/
def stripFlag (f : AugFlag) : RawFlag :=
  { variant := f.variant
    header := f.header
    body := f.body
    buttons := f.buttons.map (List.map stripButton) }

/-- Structural copy of a button (the `JSON.parse(JSON.stringify(..))` deep
copy restricted to our value model). -/
def copyButton (b : AugButton) : AugButton := { name := b.name, url := b.url, key := b.key }

/-- Structural deep copy of a flag, modelling
`JSON.parse(JSON.stringify(this.errorRecordFlag))`. -/
def deepCopy (f : AugFlag) : AugFlag :=
  { variant := f.variant
    header := f.header
    body := f.body
    buttons := f.buttons.map (List.map copyButton)
    key := f.key
    showDetails := f.showDetails
    varientCSS := f.varientCSS
    hasButtons := f.hasButtons
    isClicked := f.isClicked }

/-! Errors, toasts and the external collaborators' data. -/

/-- The shape of a rejection reason as inspected by `handleError`
(`error?.body?.output?.errors?.[0]?.message` and `error?.body?.message`).
A thrown `TypeError` has neither field. -/
structure JsError where
  outputErr : Option JStr
  bodyMsg : Option JStr
deriving DecidableEq

/-- A `ShowToastEvent` payload. -/
structure Toast where
  title : JStr
  message : JStr
  variant : JStr
deriving DecidableEq

/-- The message assembled by `handleError` (identical in both components). -/
def errMessage (e : JsError) : JStr :=
  str "Something went wrong in recordFlags! "
  ++ (match e.outputErr with
      | some m => m
      | none =>
        match e.bodyMsg with
        | some m => m
        | none => [])

/-- The toast raised by `handleError` via `showToast("Error", msg, "error")`. -/
def errorToast (e : JsError) : Toast :=
  { title := str "Error", message := errMessage e, variant := str "error" }

/-- The opaque shared record payload (`result.sharedData`); an object, hence
always truthy when present. -/
abbrev Payload := JStr

/-- One `Record_Flag__mdt` descriptor as delivered to the LWC; the record's
DeveloperName serves as the unit identifier. -/
structure Mdt where
  apexClassName : JStr
  customPermission : Option JStr
  flowClassName : Option JStr
  isActive : Bool
  isDataFetcher : Bool
  objectName : JStr
  order : Int
  developerName : JStr
deriving DecidableEq

/-! The child component `recordFlagFetcher`. -/

/-- Observable state of one `recordFlagFetcher` instance, together with
ghost logs of its outward effects: `errEvents` records each dispatched
`errorreceive` detail, `toasts` each `ShowToastEvent`, and `fetchCalls` the
arguments of each `getFlags` (Apex `invokeFetcher`) invocation. -/
structure ChildState where
  errorRecordFlag : Option AugFlag
  listOfRecordFlags : List AugFlag
  loading : Bool
  record : Option Payload
  mdtRecord : Option Mdt
  list : List AugFlag
  errEvents : List (List AugFlag)
  toasts : List Toast
  fetchCalls : List (Payload × Mdt)
deriving DecidableEq

/-- A freshly constructed child with the given `@api` inputs
(field initializers: `listOfRecordFlags = []`, `loading = true`, `list = []`). -/
def childInit (err : Option AugFlag) (rec : Option Payload) (mdt : Option Mdt) : ChildState :=
  { errorRecordFlag := err
    listOfRecordFlags := []
    loading := true
    record := rec
    mdtRecord := mdt
    list := []
    errEvents := []
    toasts := []
    fetchCalls := [] }

/-- The body of the child's `flagData.forEach((value, index) => ...)` loop:
augment the value; if its serialization contains the marker, push it on the
error list and dispatch an `errorreceive` event carrying the whole
accumulated list, otherwise append it to the rendered list. -/
def flagsLoop (st : ChildState) (i : Nat) : List RawFlag → ChildState
  | [] => st
  | v :: t =>
    let flag := mkFlag v i
    let st' :=
      if hasSub ce (jsonRaw v) then
        { st with list := st.list ++ [flag], errEvents := st.errEvents ++ [st.list ++ [flag]] }
      else
        { st with listOfRecordFlags := st.listOfRecordFlags ++ [flag] }
    flagsLoop st' (i + 1) t

/-- The child's `handleRecordFlags(data)`.  Reading `.length` of a `null`
or `undefined` payload throws a `TypeError` (an error object with neither a
`body.output` nor a `body.message`), which propagates to the caller;
otherwise the loop runs (only when the list is non-empty) and `loading` is
cleared. -/
def handleRecordFlags (st : ChildState) (data : Option (List RawFlag)) : Except JsError ChildState :=
  match data with
  | none => .error { outputErr := none, bodyMsg := none }
  | some d =>
    let st1 := if 0 < d.length then flagsLoop st 0 d else st
    .ok { st1 with loading := false }

/-- The settlement of the child's `getFlags(...).then(r => handleRecordFlags(r)).catch(...)`
chain: a rejection, or a throw inside the `then` handler, reaches the
`catch`, which clears `loading` and raises the error toast. -/
def childGetData (st : ChildState) (res : Except JsError (Option (List RawFlag))) : ChildState :=
  match res with
  | .error e => { st with loading := false, toasts := st.toasts ++ [errorToast e] }
  | .ok data =>
    match handleRecordFlags st data with
    | .ok st' => st'
    | .error e => { st with loading := false, toasts := st.toasts ++ [errorToast e] }

/-- The synchronous part of the child's `connectedCallback`: with both
`record` and `mdtRecord` set (objects, hence truthy) it starts the fetch
(recorded in `fetchCalls`) and returns `true`; otherwise it optionally
copies `errorRecordFlag` into the rendered list, clears `loading`, and
returns `false`. -/
def connectedSync (st0 : ChildState) : ChildState × Bool :=
  match st0.record, st0.mdtRecord with
  | some r, some m => ({ st0 with fetchCalls := st0.fetchCalls ++ [(r, m)] }, true)
  | _, _ =>
    (match st0.errorRecordFlag with
     | some f => { st0 with listOfRecordFlags := st0.listOfRecordFlags ++ [deepCopy f], loading := false }
     | none => { st0 with loading := false }, false)

/-- A child whose fetch is in flight (after the synchronous part of
`connectedCallback` when both inputs are present). -/
def pendingChild (p : Payload) (m : Mdt) : ChildState :=
  (connectedSync (childInit none (some p) (some m))).1

/-- A complete child run: `connectedCallback`, then — when a fetch was
started — its settlement with `res`. -/
def childRunOn (st0 : ChildState) (res : Except JsError (Option (List RawFlag))) : ChildState :=
  let pr := connectedSync st0
  if pr.2 then childGetData pr.1 res else pr.1

/-- A complete run of a freshly created child. -/
def childRun (err : Option AugFlag) (rec : Option Payload) (mdt : Option Mdt)
    (res : Except JsError (Option (List RawFlag))) : ChildState :=
  childRunOn (childInit err rec mdt) res

/-! Characterizations of the loop's effect, stated as recursive functions
over the incoming data (used by the theorems about `flagsLoop`). -/

/-- The flags the loop appends to the rendered list: exactly the augmented
values whose serialization lacks the marker, in data order. -/
def keptFlags (i : Nat) : List RawFlag → List AugFlag
  | [] => []
  | v :: t => (if hasSub ce (jsonRaw v) then [] else [mkFlag v i]) ++ keptFlags (i + 1) t

/-- The flags the loop routes to the error list, in data order. -/
def errFlags (i : Nat) : List RawFlag → List AugFlag
  | [] => []
  | v :: t => (if hasSub ce (jsonRaw v) then [mkFlag v i] else []) ++ errFlags (i + 1) t

/-- The `errorreceive` payloads produced while the error list grows from
`L` by the given flags: each dispatch carries the whole accumulated list. -/
def evtsSpec (L : List AugFlag) : List AugFlag → List (List AugFlag)
  | [] => []
  | g :: t => (L ++ [g]) :: evtsSpec (L ++ [g]) t

/-! The parent component `recordFlags`. -/

/-- The value resolved by `getActiveFlagsMdt` (Apex `RecordFlags.getFetchers`):
the eligible fetcher descriptors and the shared record payload. -/
structure CatalogResult where
  fetchers : List Mdt
  sharedData : Payload
deriving DecidableEq

/-- Observable state of the parent `recordFlags` component, with ghost
fields: `toasts` logs each `ShowToastEvent`, and `providerCalls` counts the
`getActiveFlagsMdt` invocations — modelled from the spec, each such call
performs the one catalog lookup plus shared-data fetch of a run (the Apex
`RecordFlags.getFetchers` body is not in `src/`). -/
structure ParentState where
  haveFlags : Bool
  haveErrors : Bool
  listOfActiveMdt : List Mdt
  existingFlag : List AugFlag
  record : Option Payload
  toasts : List Toast
  providerCalls : Nat
deriving DecidableEq

/-- The parent's initial field values. -/
def parentInit : ParentState :=
  { haveFlags := false
    haveErrors := false
    listOfActiveMdt := []
    existingFlag := []
    record := none
    toasts := []
    providerCalls := 0 }

/-- The parent's `getData()`: one `getActiveFlagsMdt` call; on resolution
store the fetcher list and shared payload and set `haveFlags`; on rejection
`handleError` raises a single toast. -/
def parentGetData (st : ParentState) (res : Except JsError CatalogResult) : ParentState :=
  let st1 := { st with providerCalls := st.providerCalls + 1 }
  match res with
  | .ok r => { st1 with listOfActiveMdt := r.fetchers, record := some r.sharedData, haveFlags := true }
  | .error e => { st1 with toasts := st1.toasts ++ [errorToast e] }

/-- One iteration of the parent's `flagData.forEach((childFlag) => ...)` in
`handleChildRecordFlags`: when the serialized `existingFlag` list contains
the marker, append the incoming body to the first flag's body unless it
equals that flag's entire current body; otherwise push the incoming flag.
(The `[]` arm of the inner match is unreachable: the serialization of an
empty list is `"[]"`, which never contains the marker.) -/
def acceptFlag (st : ParentState) (cf : AugFlag) : ParentState :=
  if hasSub ce (jsonAugList st.existingFlag) then
    match st.existingFlag with
    | [] => st
    | f0 :: rest =>
      if f0.body = cf.body then st
      else
        { st with existingFlag :=
            { f0 with body := some (jsShow f0.body ++ '\n' :: jsShow cf.body) } :: rest }
  else
    { st with existingFlag := st.existingFlag ++ [cf] }
where
  /-- JavaScript string coercion of a possibly-null field in `a + "\n" + b`. -/
  jsShow : Option JStr → JStr
    | some s => s
    | none => str "null"

/-- The parent's `handleChildRecordFlags(event)`: for a non-empty detail,
fold the incoming flags through `acceptFlag` and set `haveErrors`. -/
def handleChildRecordFlags (st : ParentState) (flagData : List AugFlag) : ParentState :=
  if 0 < flagData.length then
    let st' := flagData.foldl acceptFlag st
    { st' with haveErrors := true }
  else st

/-- An interaction the parent reacts to: an `errorreceive` event from a
child, or a `Refresh` signal (whose `handleRefresh` immediately re-invokes
`getData`, here settled with `res`). -/
inductive ParentEvt where
  | childErr (flags : List AugFlag)
  | refresh (res : Except JsError CatalogResult)
deriving DecidableEq

/-- Dispatch one interaction to the parent's handler. -/
def parentStep (st : ParentState) : ParentEvt → ParentState
  | .childErr fs => handleChildRecordFlags st fs
  | .refresh res => parentGetData st res

/-- Fold a sequence of interactions from the initial parent state. -/
def parentRunEvts (evts : List ParentEvt) : ParentState :=
  evts.foldl parentStep parentInit

/-- Modelled from the spec: the parent template (not in `src/`) renders one
`recordFlagFetcher` child per entry of `listOfActiveMdt`, passing the shared
`record` and the mdt entry. -/
def spawnChildren (st : ParentState) : List ChildState :=
  st.listOfActiveMdt.map fun m => childInit none st.record (some m)

/-- One orchestration run: the parent's `getData` settles with `res`, the
children it spawns run, child `i`'s Apex invocation settling with
`results i`. -/
def orchRun (res : Except JsError CatalogResult)
    (results : Nat → Except JsError (Option (List RawFlag))) : ParentState × List ChildState :=
  let p := parentGetData parentInit res
  (p, (withIdx 0 (spawnChildren p)).map fun ic => childRunOn ic.2 (results ic.1))

/-- Modelled from the spec: the Apex invoker (`RecordFlags.invokeFetcher`,
not in `src/`) converts a thrown unit fault into a synthetic error flag
that the LWCs recognize by the marker substring "Component Error"; it
carries the marker in its header and the failure reason in its body. -/
def failureRaw (reason : JStr) : RawFlag :=
  { variant := str "ERROR", header := str "Component Error", body := some reason, buttons := none }

/-- A failure flag as it reaches the parent: the child's augmentation of a
synthetic error flag (the child dispatches the flags it classified as
errors). -/
def errDelivery (reason : JStr) : AugFlag := mkFlag (failureRaw reason) 0

/-- The accumulated coalesced error flag whose body is `b` (an
`errDelivery` flag after body mutations). -/
def errAcc (b : JStr) : AugFlag := { errDelivery [] with body := some b }

/-- Fold a sequence of child-failure deliveries (each event a list of
failure reasons) through the parent's handler, from a given state. -/
def parentFold (st : ParentState) (evts : List (List JStr)) : ParentState :=
  evts.foldl (fun st rs => handleChildRecordFlags st (rs.map errDelivery)) st

/-- Fold a sequence of child-failure deliveries (each event a list of
failure reasons) through the parent's handler. -/
def runParent (evts : List (List JStr)) : ParentState :=
  parentFold parentInit evts

/-- The body of the coalesced error flag, when one exists. -/
def aggBody (st : ParentState) : JStr :=
  match st.existingFlag with
  | f :: _ => acceptFlag.jsShow f.body
  | [] => []

/-! Completion-order machinery for the dispatched children (claim C8). -/

/-- Deliver one settlement `(i, res)` to child `i` of the dispatched family. -/
def applyEvt (g : List ChildState) (e : Nat × Except JsError (Option (List RawFlag))) : List ChildState :=
  updAt g e.1 fun c => childGetData c e.2

/-- The dispatched children of a run, all pending, in catalog order. -/
def initG (p : Payload) (units : List Mdt) : List ChildState :=
  units.map fun m => pendingChild p m

/-- The rendered flag sequence of a family of children: each child renders
its own `listOfRecordFlags`; the template shows the children in catalog
order, so the page shows their concatenation in that order. -/
def rendered (g : List ChildState) : List AugFlag :=
  (g.map fun c => c.listOfRecordFlags).flatten

/-- Ascending catalog order: by order key, ties by unit identifier. -/
def unitLE (a b : Mdt) : Bool :=
  decide (a.order < b.order) || (a.order == b.order && lexLe a.developerName b.developerName)

/-- Modelled from the spec: the Apex catalog (`RecordFlags.getFetchers`,
not in `src/`) returns the fetchers sorted ascending by `Order__c`, ties
broken by unit identifier; this predicate states a list is in that order. -/
def unitsSorted : List Mdt → Bool
  | [] => true
  | [_] => true
  | a :: b :: t => unitLE a b && unitsSorted (b :: t)

/-! Concrete fixtures used by witnesses and counterexamples. -/

/-- A concrete fetcher descriptor. -/
def mdt0 : Mdt :=
  { apexClassName := str "CaseFlags.DaysOpen"
    customPermission := none
    flowClassName := none
    isActive := true
    isDataFetcher := false
    objectName := str "Case"
    order := 1
    developerName := str "Days_Open" }

/-- A second concrete fetcher descriptor, later in catalog order. -/
def mdt1 : Mdt :=
  { mdt0 with
    apexClassName := str "CaseFlags.OpenContactOpportunities"
    order := 2
    developerName := str "Open_Opps" }

/-- A concrete ordinary warning flag. -/
def vWarn : RawFlag :=
  { variant := str "WARNING", header := str "Open Opportunities", body := none, buttons := none }

/-- A flag that is not an error yet mentions the marker in its header. -/
def vTricky : RawFlag :=
  { variant := str "SUCCESS", header := str "Component Error drill passed", body := none, buttons := none }

/-- A concrete augmented flag (for witness inputs). -/
def flag0 : AugFlag := mkFlag vWarn 0

/-- A concrete successful catalog result with two fetchers. -/
def r0 : CatalogResult := { fetchers := [mdt0, mdt1], sharedData := str "sharedRecord" }

/-- Concrete per-child settlements for witnesses: unit 0 yields one warning
flag, every other unit an empty list. -/
def resultsW : Nat → Except JsError (Option (List RawFlag)) :=
  fun n => if n = 0 then .ok (some [vWarn]) else .ok (some [])

/-! Substring lemmas for the `includes` model. -/

/-- A string begins with itself followed by anything. -/
theorem begWith_append_self (p t : JStr) : begWith p (p ++ t) = true := by
  induction p with
  | nil => rfl
  | cons a p ih => simpa [begWith] using ih

/-- `begWith` is reflexive. -/
theorem begWith_refl (p : JStr) : begWith p p = true := by
  simpa using begWith_append_self p []

/-- The empty pattern occurs in every string. -/
theorem hasSub_nil (s : JStr) : hasSub ([] : JStr) s = true := by
  cases s <;> simp [hasSub, begWith]

/-- Characterization of `begWith`: the searched string is the pattern plus a tail. -/
theorem begWith_ex {p s : JStr} (h : begWith p s = true) : ∃ u, s = p ++ u := by
  induction p generalizing s with
  | nil => exact ⟨s, rfl⟩
  | cons a p ih =>
    cases s with
    | nil => simp [begWith] at h
    | cons b t =>
      by_cases hab : a = b
      · subst hab
        simp only [begWith, if_pos rfl] at h
        obtain ⟨u, hu⟩ := ih h
        exact ⟨u, by simp [hu]⟩
      · simp [begWith, hab] at h

/-- A begun-with pattern survives extending the string on the right. -/
theorem begWith_extend {p s : JStr} (u : JStr) (h : begWith p s = true) :
    begWith p (s ++ u) = true := by
  obtain ⟨w, hw⟩ := begWith_ex h
  subst hw
  simpa [List.append_assoc] using begWith_append_self p (w ++ u)

/-- `begWith` is transitive. -/
theorem begWith_trans {a b c : JStr} (h1 : begWith a b = true) (h2 : begWith b c = true) :
    begWith a c = true := by
  obtain ⟨u, hu⟩ := begWith_ex h1
  obtain ⟨w, hw⟩ := begWith_ex h2
  subst hu hw
  simpa [List.append_assoc] using begWith_append_self a (u ++ w)

/-- A substring occurrence survives one character prepended. -/
theorem hasSub_cons (p : JStr) (c : Char) {s : JStr} (h : hasSub p s = true) :
    hasSub p (c :: s) = true := by
  show (begWith p (c :: s) || hasSub p s) = true
  rw [h]
  simp

/-- The pattern occurs in any string of the form `a ++ p ++ b`. -/
theorem hasSub_parts (a p b : JStr) : hasSub p (a ++ p ++ b) = true := by
  induction a with
  | nil =>
    rw [List.nil_append]
    cases p with
    | nil => simpa using hasSub_nil b
    | cons x q =>
      have hb : begWith (x :: q) ((x :: q) ++ b) = true := begWith_append_self (x :: q) b
      rw [List.cons_append] at hb ⊢
      show (begWith (x :: q) (x :: (q ++ b)) || hasSub (x :: q) (q ++ b)) = true
      rw [hb]
      simp
  | cons c a ih =>
    have he : (c :: a) ++ p ++ b = c :: (a ++ p ++ b) := by simp
    rw [he]
    exact hasSub_cons p c ih

/-- Characterization of `hasSub`: the searched string decomposes around the pattern. -/
theorem hasSub_ex {p s : JStr} (h : hasSub p s = true) : ∃ a b, s = a ++ p ++ b := by
  induction s with
  | nil =>
    obtain ⟨u, hu⟩ := begWith_ex (p := p) (s := []) h
    exact ⟨[], u, hu⟩
  | cons c t ih =>
    rcases Bool.or_eq_true_iff.mp h with hb | ht
    · obtain ⟨u, hu⟩ := begWith_ex hb
      exact ⟨[], u, by simpa using hu⟩
    · obtain ⟨a, b, hab⟩ := ih ht
      exact ⟨c :: a, b, by simp [hab]⟩

/-- A substring occurrence survives extension on the right. -/
theorem hasSub_append_left (p : JStr) {a : JStr} (b : JStr) (h : hasSub p a = true) :
    hasSub p (a ++ b) = true := by
  obtain ⟨x, y, hxy⟩ := hasSub_ex h
  subst hxy
  simpa [List.append_assoc] using hasSub_parts x p (y ++ b)

/-- A substring occurrence survives extension on the left. -/
theorem hasSub_append_right (p : JStr) (a : JStr) {b : JStr} (h : hasSub p b = true) :
    hasSub p (a ++ b) = true := by
  induction a with
  | nil => simpa using h
  | cons c t ih => simpa using hasSub_cons p c ih

/-- The JSON escaper distributes over append. -/
theorem esc_append (a b : JStr) : esc (a ++ b) = esc a ++ esc b := by
  induction a with
  | nil => rfl
  | cons c t ih => simp [esc, ih]

/-- The marker substring, containing no escapable character, survives JSON escaping. -/
theorem hasSub_esc_ce {h : JStr} (hh : hasSub ce h = true) : hasSub ce (esc h) = true := by
  obtain ⟨a, b, hab⟩ := hasSub_ex hh
  subst hab
  rw [esc_append, esc_append]
  have hce : esc ce = ce := by decide
  rw [hce]
  exact hasSub_parts (esc a) ce (esc b)

/-- A raw flag whose header contains the marker serializes to a string
containing the marker. -/
theorem hasSub_jsonRaw_of_header (v : RawFlag) (hh : hasSub ce v.header = true) :
    hasSub ce (jsonRaw v) = true := by
  unfold jsonRaw
  simp only [List.append_assoc]
  apply hasSub_append_right
  apply hasSub_append_right
  apply hasSub_append_right
  unfold jsonStr
  simp only [List.append_assoc]
  apply hasSub_append_left
  apply hasSub_cons
  exact hasSub_esc_ce hh

/-- An augmented flag headed by the exact marker string serializes to a
string containing the marker. -/
theorem hasSub_jsonAug_of_header (f : AugFlag) (hh : f.header = str "Component Error") :
    hasSub ce (jsonAug f) = true := by
  unfold jsonAug
  simp only [List.append_assoc]
  apply hasSub_append_right
  apply hasSub_append_right
  apply hasSub_append_right
  rw [hh]
  apply hasSub_append_left
  decide

/-- Comma-joining a non-empty list of segments begins with the first segment. -/
theorem joinComma_cons_ex (x : JStr) (m : List JStr) : ∃ u, joinComma (x :: m) = x ++ u := by
  cases m with
  | nil => exact ⟨[], by simp [joinComma]⟩
  | cons y t => exact ⟨',' :: joinComma (y :: t), rfl⟩

/-- If the first flag of the list serializes with the marker, so does the
serialized list. -/
theorem hasSub_jsonAugList_cons (f : AugFlag) (rest : List AugFlag)
    (h : hasSub ce (jsonAug f) = true) : hasSub ce (jsonAugList (f :: rest)) = true := by
  obtain ⟨u, hu⟩ := joinComma_cons_ex (jsonAug f) (rest.map jsonAug)
  unfold jsonAugList
  rw [List.map_cons, hu, List.cons_append]
  apply hasSub_cons
  rw [List.append_assoc]
  exact hasSub_append_left ce _ h

/-- The serialization of an empty error-flag list lacks the marker. -/
theorem jsonAugList_nil_noCE : hasSub ce (jsonAugList []) = false := by decide

/-! Behavior of the parent's error coalescing. -/

/-- A delivered failure flag is the accumulator flag with its reason as body. -/
theorem errDelivery_eq (r : JStr) : errDelivery r = errAcc r := rfl

/-- The accumulator flag is headed by the marker string. -/
theorem errAcc_header (b : JStr) : (errAcc b).header = str "Component Error" := rfl

/-- The accumulator flag's body. -/
theorem errAcc_body (b : JStr) : (errAcc b).body = some b := rfl

/-- Updating the accumulator's body yields the accumulator of the new body. -/
theorem errAcc_set (b x : JStr) : { errAcc b with body := some x } = errAcc x := rfl

/-- With an empty error-flag list, `acceptFlag` pushes the incoming flag. -/
theorem acceptFlag_empty {st : ParentState} (h : st.existingFlag = []) (cf : AugFlag) :
    acceptFlag st cf = { st with existingFlag := [cf] } := by
  unfold acceptFlag
  rw [h, jsonAugList_nil_noCE]
  simp

/-- With the coalesced flag in place, `acceptFlag` either skips (body equal
to the whole accumulated body) or appends to the body. -/
theorem acceptFlag_acc {st : ParentState} {b : JStr} (h : st.existingFlag = [errAcc b])
    (cf : AugFlag) :
    acceptFlag st cf =
      if some b = cf.body then st
      else { st with existingFlag := [errAcc (b ++ '\n' :: acceptFlag.jsShow cf.body)] } := by
  have hc : hasSub ce (jsonAugList [errAcc b]) = true :=
    hasSub_jsonAugList_cons _ _ (hasSub_jsonAug_of_header _ (errAcc_header b))
  unfold acceptFlag
  rw [h, hc]
  show (if some b = cf.body then st
    else { st with existingFlag :=
      { errAcc b with body := some (acceptFlag.jsShow (some b) ++ '\n' :: acceptFlag.jsShow cf.body) } :: [] }) = _
  by_cases hb : some b = cf.body
  · rw [if_pos hb, if_pos hb]
  · rw [if_neg hb, if_neg hb]
    show ({ st with existingFlag := { errAcc b with body := some (b ++ '\n' :: acceptFlag.jsShow cf.body) } :: [] } : ParentState) = _
    rw [errAcc_set]

/-- Folding any deliveries from a coalesced state keeps exactly one
accumulator flag and only ever extends its body. -/
theorem foldAccept_acc (cfs : List AugFlag) :
    ∀ (st : ParentState) (b : JStr), st.existingFlag = [errAcc b] →
      ∃ b2, (cfs.foldl acceptFlag st).existingFlag = [errAcc b2] ∧ begWith b b2 = true := by
  induction cfs with
  | nil => exact fun st b h => ⟨b, by simpa using h, begWith_refl b⟩
  | cons cf t ih =>
    intro st b h
    rw [List.foldl_cons, acceptFlag_acc h cf]
    by_cases hb : some b = cf.body
    · rw [if_pos hb]
      exact ih st b h
    · rw [if_neg hb]
      obtain ⟨b2, h2, hbw⟩ :=
        ih { st with existingFlag := [errAcc (b ++ '\n' :: acceptFlag.jsShow cf.body)] }
          (b ++ '\n' :: acceptFlag.jsShow cf.body) rfl
      exact ⟨b2, h2, begWith_trans (begWith_append_self b _) hbw⟩

/-- The parent's handler ignores an empty event detail. -/
theorem handleChild_nil (st : ParentState) : handleChildRecordFlags st [] = st := rfl

/-- The parent's handler on a non-empty event detail: fold the flags, then
set `haveErrors`. -/
theorem handleChild_cons (st : ParentState) (cf : AugFlag) (cfs : List AugFlag) :
    handleChildRecordFlags st (cf :: cfs) =
      { (cf :: cfs).foldl acceptFlag st with haveErrors := true } := by
  unfold handleChildRecordFlags
  rw [if_pos (by simp)]

/-- From a coalesced state, any further delivery events keep exactly one
accumulator flag, only ever extending its body. -/
theorem parentFold_acc (evts : List (List JStr)) :
    ∀ (st : ParentState) (b : JStr), st.existingFlag = [errAcc b] →
      ∃ b2, (parentFold st evts).existingFlag = [errAcc b2] ∧ begWith b b2 = true := by
  induction evts with
  | nil => exact fun st b h => ⟨b, by simpa [parentFold] using h, begWith_refl b⟩
  | cons rs t ih =>
    intro st b h
    show ∃ b2, (parentFold (handleChildRecordFlags st (rs.map errDelivery)) t).existingFlag = [errAcc b2] ∧ _
    cases rs with
    | nil => simpa [handleChild_nil] using ih st b h
    | cons r rs' =>
      rw [List.map_cons, handleChild_cons]
      obtain ⟨b1, h1, hw1⟩ := foldAccept_acc (errDelivery r :: rs'.map errDelivery) st b h
      obtain ⟨b2, h2, hw2⟩ :=
        ih { (errDelivery r :: rs'.map errDelivery).foldl acceptFlag st with haveErrors := true }
          b1 (by exact h1)
      exact ⟨b2, h2, begWith_trans hw1 hw2⟩

/-- From an empty aggregate, folding delivery events leaves the aggregate
empty exactly when every event was empty, and otherwise installs exactly
one accumulator flag. -/
theorem parentFold_empty (evts : List (List JStr)) :
    ∀ (st : ParentState), st.existingFlag = [] →
      ((evts.all fun rs => rs.isEmpty) = true ∧ (parentFold st evts).existingFlag = []) ∨
      ((evts.all fun rs => rs.isEmpty) = false ∧ ∃ b, (parentFold st evts).existingFlag = [errAcc b]) := by
  induction evts with
  | nil => exact fun st h => Or.inl ⟨rfl, by simpa [parentFold] using h⟩
  | cons rs t ih =>
    intro st h
    cases rs with
    | nil =>
      have step : parentFold st ([] :: t) = parentFold st t := by
        show parentFold (handleChildRecordFlags st []) t = _
        rw [handleChild_nil]
      rw [step]
      rcases ih st h with ⟨ha, he⟩ | ⟨ha, b, hb⟩
      · exact Or.inl ⟨by simpa using ha, he⟩
      · exact Or.inr ⟨by simpa using ha, b, hb⟩
    | cons r rs' =>
      apply Or.inr
      refine ⟨by simp, ?_⟩
      have step : parentFold st ((r :: rs') :: t) =
          parentFold (handleChildRecordFlags st ((r :: rs').map errDelivery)) t := rfl
      rw [step, List.map_cons, handleChild_cons]
      have h1 : (acceptFlag st (errDelivery r)).existingFlag = [errAcc r] := by
        rw [acceptFlag_empty h, errDelivery_eq]
      obtain ⟨b1, hb1, _⟩ := foldAccept_acc (rs'.map errDelivery) (acceptFlag st (errDelivery r)) r h1
      have hb1a : ((errDelivery r :: rs'.map errDelivery).foldl acceptFlag st).existingFlag = [errAcc b1] := by
        rw [List.foldl_cons]
        exact hb1
      obtain ⟨b2, hb2, _⟩ := parentFold_acc t
        { (errDelivery r :: rs'.map errDelivery).foldl acceptFlag st with haveErrors := true }
        b1 (by exact hb1a)
      exact ⟨b2, hb2⟩

/-- A delivered failure flag's body is its reason. -/
theorem errDelivery_body (r : JStr) : (errDelivery r).body = some r := rfl

/-- Appending one entry to a non-empty newline join. -/
theorem joinNL_snoc (p : List JStr) (r : JStr) (hp : p ≠ []) :
    joinNL (p ++ [r]) = joinNL p ++ '\n' :: r := by
  induction p with
  | nil => cases hp rfl
  | cons x p ih =>
    cases p with
    | nil => rfl
    | cons y q =>
      have hq := ih (by simp)
      show x ++ '\n' :: joinNL ((y :: q) ++ [r]) = (x ++ '\n' :: joinNL (y :: q)) ++ '\n' :: r
      rw [hq]
      simp

/-- The join of at least two entries contains a newline. -/
theorem newline_mem_joinNL (x y : JStr) (t : List JStr) : '\n' ∈ joinNL (x :: y :: t) := by
  show '\n' ∈ x ++ '\n' :: joinNL (y :: t)
  simp

/-- Delivering identical reasons to a coalesced state with that exact body
leaves the body unchanged (the whole-body comparison suppresses them). -/
theorem parentFold_same (k : Nat) (r : JStr) :
    ∀ st : ParentState, st.existingFlag = [errAcc r] →
      (parentFold st (List.replicate k [r])).existingFlag = [errAcc r] := by
  induction k with
  | zero => intro st h; simpa [parentFold] using h
  | succ n ih =>
    intro st h
    have step : parentFold st (List.replicate (n + 1) [r]) =
        parentFold (handleChildRecordFlags st [errDelivery r]) (List.replicate n [r]) := rfl
    rw [step, handleChild_cons st (errDelivery r) []]
    have hfold : [errDelivery r].foldl acceptFlag st = st := by
      rw [List.foldl_cons, List.foldl_nil, acceptFlag_acc h, if_pos (by rw [errDelivery_body])]
    rw [hfold]
    exact ih { st with haveErrors := true } (by exact h)

/-- Delivering pairwise-distinct newline-free reasons, one event each,
appends each new reason to the accumulated newline join. -/
theorem parentFold_distinct (rs : List JStr) :
    ∀ (p : List JStr) (st : ParentState), p ≠ [] →
      (p ++ rs).Nodup → (∀ x ∈ p ++ rs, '\n' ∉ x) →
      st.existingFlag = [errAcc (joinNL p)] →
      (parentFold st (rs.map fun r => [r])).existingFlag = [errAcc (joinNL (p ++ rs))] := by
  induction rs with
  | nil => intro p st _ _ _ h; simpa [parentFold] using h
  | cons r t ih =>
    intro p st hp hnd hnl h
    have step : parentFold st ((r :: t).map fun r => [r]) =
        parentFold (handleChildRecordFlags st [errDelivery r]) (t.map fun r => [r]) := rfl
    rw [step, handleChild_cons st (errDelivery r) []]
    have hner : joinNL p ≠ r := by
      intro hc
      cases p with
      | nil => exact hp rfl
      | cons a q =>
        cases q with
        | nil =>
          have ha : a ≠ r := by
            rw [List.singleton_append, List.nodup_cons] at hnd
            exact fun he => hnd.1 (by rw [he]; exact List.mem_cons_self r t)
          exact ha (by simpa [joinNL] using hc)
        | cons b q' =>
          have hm : '\n' ∈ joinNL (a :: b :: q') := newline_mem_joinNL a b q'
          rw [hc] at hm
          exact hnl r (by simp) hm
    have hne : ¬ (some (joinNL p) = (errDelivery r).body) := by
      rw [errDelivery_body]
      exact fun hc => hner (Option.some.inj hc)
    have hfold : [errDelivery r].foldl acceptFlag st =
        { st with existingFlag := [errAcc (joinNL (p ++ [r]))] } := by
      rw [List.foldl_cons, List.foldl_nil, acceptFlag_acc h, if_neg hne,
        joinNL_snoc p r hp]
      rfl
    rw [hfold]
    have hassoc : (p ++ [r]) ++ t = p ++ (r :: t) := by simp
    have := ih (p ++ [r])
      { { st with existingFlag := [errAcc (joinNL (p ++ [r]))] } with haveErrors := true }
      (by simp) (by rw [hassoc]; exact hnd) (by rw [hassoc]; exact hnl) (by exact rfl)
    rw [hassoc] at this
    exact this

/-! Behavior of the child's flag loop. -/

/-- Unfolding of the loop at a cons cell. -/
theorem flagsLoop_cons (st : ChildState) (i : Nat) (v : RawFlag) (t : List RawFlag) :
    flagsLoop st i (v :: t) =
      if hasSub ce (jsonRaw v) then
        flagsLoop
          { st with
            list := st.list ++ [mkFlag v i]
            errEvents := st.errEvents ++ [st.list ++ [mkFlag v i]] } (i + 1) t
      else
        flagsLoop { st with listOfRecordFlags := st.listOfRecordFlags ++ [mkFlag v i] } (i + 1) t := by
  by_cases hce : hasSub ce (jsonRaw v) = true
  · simp only [flagsLoop, if_pos hce]
  · simp only [flagsLoop, if_neg hce]

/-- Unfolding of the kept-flag characterization at a cons cell. -/
theorem keptFlags_cons (i : Nat) (v : RawFlag) (t : List RawFlag) :
    keptFlags i (v :: t) =
      (if hasSub ce (jsonRaw v) then [] else [mkFlag v i]) ++ keptFlags (i + 1) t := rfl

/-- Unfolding of the error-flag characterization at a cons cell. -/
theorem errFlags_cons (i : Nat) (v : RawFlag) (t : List RawFlag) :
    errFlags i (v :: t) =
      (if hasSub ce (jsonRaw v) then [mkFlag v i] else []) ++ errFlags (i + 1) t := rfl

/-- The loop appends to the rendered list exactly the non-marker flags. -/
theorem flagsLoop_kept (data : List RawFlag) :
    ∀ (st : ChildState) (i : Nat),
      (flagsLoop st i data).listOfRecordFlags = st.listOfRecordFlags ++ keptFlags i data := by
  induction data with
  | nil => intro st i; simp [flagsLoop, keptFlags]
  | cons v t ih =>
    intro st i
    rw [flagsLoop_cons, keptFlags_cons]
    by_cases hce : hasSub ce (jsonRaw v) = true
    · rw [if_pos hce, if_pos hce, ih]
      simp
    · rw [if_neg hce, if_neg hce, ih]
      simp

/-- The loop appends to the error list exactly the marker flags. -/
theorem flagsLoop_list (data : List RawFlag) :
    ∀ (st : ChildState) (i : Nat),
      (flagsLoop st i data).list = st.list ++ errFlags i data := by
  induction data with
  | nil => intro st i; simp [flagsLoop, errFlags]
  | cons v t ih =>
    intro st i
    rw [flagsLoop_cons, errFlags_cons]
    by_cases hce : hasSub ce (jsonRaw v) = true
    · rw [if_pos hce, if_pos hce, ih]
      simp
    · rw [if_neg hce, if_neg hce, ih]
      simp

/-- The loop dispatches one event per marker flag, each carrying the whole
error list accumulated so far. -/
theorem flagsLoop_evts (data : List RawFlag) :
    ∀ (st : ChildState) (i : Nat),
      (flagsLoop st i data).errEvents = st.errEvents ++ evtsSpec st.list (errFlags i data) := by
  induction data with
  | nil => intro st i; simp [flagsLoop, errFlags, evtsSpec]
  | cons v t ih =>
    intro st i
    rw [flagsLoop_cons, errFlags_cons]
    by_cases hce : hasSub ce (jsonRaw v) = true
    · rw [if_pos hce, if_pos hce, ih]
      show _ = st.errEvents ++ evtsSpec st.list (mkFlag v i :: errFlags (i + 1) t)
      rw [show evtsSpec st.list (mkFlag v i :: errFlags (i + 1) t) =
        (st.list ++ [mkFlag v i]) :: evtsSpec (st.list ++ [mkFlag v i]) (errFlags (i + 1) t) from rfl]
      simp
    · rw [if_neg hce, if_neg hce, ih]
      simp

/-- The loop does not touch the loading flag, the toast log, the fetch log,
nor the component inputs. -/
theorem flagsLoop_rest (data : List RawFlag) :
    ∀ (st : ChildState) (i : Nat),
      (flagsLoop st i data).loading = st.loading ∧
      (flagsLoop st i data).toasts = st.toasts ∧
      (flagsLoop st i data).fetchCalls = st.fetchCalls ∧
      (flagsLoop st i data).errorRecordFlag = st.errorRecordFlag := by
  induction data with
  | nil => intro st i; simp [flagsLoop]
  | cons v t ih =>
    intro st i
    rw [flagsLoop_cons]
    by_cases hce : hasSub ce (jsonRaw v) = true
    · rw [if_pos hce]
      simpa using ih _ (i + 1)
    · rw [if_neg hce]
      simpa using ih _ (i + 1)

/-- Keying the buttons and stripping the keys round-trips. -/
theorem keyButtons_strip (bs : List RawButton) : ∀ i, (keyButtons i bs).map stripButton = bs := by
  induction bs with
  | nil => intro i; rfl
  | cons b t ih =>
    intro i
    show stripButton _ :: (keyButtons (i + 1) t).map stripButton = b :: t
    rw [ih (i + 1)]
    rfl

/-- The augmentation preserves the raw value it decorates. -/
theorem stripFlag_mkFlag (v : RawFlag) (i : Nat) : stripFlag (mkFlag v i) = v := by
  cases v with
  | mk variant header body buttons =>
    cases buttons with
    | none => rfl
    | some bs =>
      show ({ variant := variant
              header := header
              body := body
              buttons := some ((keyButtons 0 bs).map stripButton) } : RawFlag) = _
      rw [keyButtons_strip bs 0]

/-- Every kept (rendered) flag decorates a raw value that lacks the marker. -/
theorem keptFlags_strip (data : List RawFlag) :
    ∀ (i : Nat) (f : AugFlag), f ∈ keptFlags i data →
      hasSub ce (jsonRaw (stripFlag f)) = false := by
  induction data with
  | nil => intro i f h; simp [keptFlags] at h
  | cons v t ih =>
    intro i f h
    rw [keptFlags_cons] at h
    rcases List.mem_append.mp h with h1 | h2
    · by_cases hce : hasSub ce (jsonRaw v) = true
      · rw [if_pos hce] at h1
        simp at h1
      · rw [if_neg hce] at h1
        have hf : f = mkFlag v i := by simpa using h1
        rw [hf, stripFlag_mkFlag]
        exact Bool.eq_false_iff.mpr hce
    · exact ih (i + 1) f h2

/-- Every error-routed flag decorates a raw value that contains the marker. -/
theorem errFlags_strip (data : List RawFlag) :
    ∀ (i : Nat) (f : AugFlag), f ∈ errFlags i data →
      hasSub ce (jsonRaw (stripFlag f)) = true := by
  induction data with
  | nil => intro i f h; simp [errFlags] at h
  | cons v t ih =>
    intro i f h
    rw [errFlags_cons] at h
    rcases List.mem_append.mp h with h1 | h2
    · by_cases hce : hasSub ce (jsonRaw v) = true
      · rw [if_pos hce] at h1
        have hf : f = mkFlag v i := by simpa using h1
        rw [hf, stripFlag_mkFlag]
        exact hce
      · rw [if_neg hce] at h1
        simp at h1
    · exact ih (i + 1) f h2

/-- The structural button copy is the identity. -/
theorem map_copyButton (bs : List AugButton) : bs.map copyButton = bs := by
  induction bs with
  | nil => rfl
  | cons b t ih =>
    show copyButton b :: t.map copyButton = b :: t
    rw [ih]
    rfl

/-- The structural deep copy is the identity on the flag value model. -/
theorem deepCopy_id (f : AugFlag) : deepCopy f = f := by
  have hbtn : f.buttons.map (List.map copyButton) = f.buttons := by
    cases f.buttons with
    | none => rfl
    | some bs => show some (bs.map copyButton) = _; rw [map_copyButton]
  show ({ variant := f.variant
          header := f.header
          body := f.body
          buttons := f.buttons.map (List.map copyButton)
          key := f.key
          showDetails := f.showDetails
          varientCSS := f.varientCSS
          hasButtons := f.hasButtons
          isClicked := f.isClicked } : AugFlag) = f
  rw [hbtn]

/-- Settling the child's fetch never adds `getFlags` invocations. -/
theorem childGetData_fetch (st : ChildState) (res : Except JsError (Option (List RawFlag))) :
    (childGetData st res).fetchCalls = st.fetchCalls := by
  cases res with
  | error e => rfl
  | ok data =>
    cases data with
    | none => rfl
    | some d =>
      show ({ (if 0 < d.length then flagsLoop st 0 d else st) with loading := false } : ChildState).fetchCalls
        = st.fetchCalls
      by_cases hd : 0 < d.length
      · rw [if_pos hd]
        simpa using (flagsLoop_rest d st 0).2.2.1
      · rw [if_neg hd]

/-- A child started with both inputs records exactly its one Apex
invocation, with the shared payload passed unchanged. -/
theorem childRunOn_fetch (p : Payload) (m : Mdt) (res : Except JsError (Option (List RawFlag))) :
    (childRunOn (childInit none (some p) (some m)) res).fetchCalls = [(p, m)] := by
  show (childGetData (pendingChild p m) res).fetchCalls = [(p, m)]
  rw [childGetData_fetch]
  rfl

/-- The fetch log of every spawned child of a run, in catalog order. -/
theorem spawn_fetch (ms : List Mdt) (sh : Payload)
    (results : Nat → Except JsError (Option (List RawFlag))) :
    ∀ k, (((withIdx k (ms.map fun m => childInit none (some sh) (some m))).map fun ic =>
      childRunOn ic.2 (results ic.1)).map fun c => c.fetchCalls) = ms.map fun m => [(sh, m)] := by
  induction ms with
  | nil => intro k; rfl
  | cons m t ih =>
    intro k
    show (childRunOn (childInit none (some sh) (some m)) (results k)).fetchCalls :: _
      = [(sh, m)] :: t.map fun m => [(sh, m)]
    rw [childRunOn_fetch, ih (k + 1)]

/-! Indexing lemmas for completion-order independence. -/

/-- Indexing commutes with `map`. -/
theorem getAt_map (l : List α) (h : α → β) : ∀ j, getAt (l.map h) j = (getAt l j).map h := by
  induction l with
  | nil => intro j; rfl
  | cons x t ih =>
    intro j
    cases j with
    | zero => rfl
    | succ n => exact ih n

/-- Indexing into an index-tagged list. -/
theorem getAt_withIdx (l : List α) :
    ∀ k j, getAt (withIdx k l) j = (getAt l j).map fun a => (k + j, a) := by
  induction l with
  | nil => intro k j; rfl
  | cons x t ih =>
    intro k j
    cases j with
    | zero => rfl
    | succ n =>
      show getAt (withIdx (k + 1) t) n = (getAt t n).map fun a => (k + (n + 1), a)
      rw [ih (k + 1) n]
      have hk : k + 1 + n = k + (n + 1) := by omega
      rw [hk]

/-- Indexing after a point update. -/
theorem getAt_updAt (l : List α) :
    ∀ (i : Nat) (g : α → α) (j : Nat),
      getAt (updAt l i g) j = if i = j then (getAt l j).map g else getAt l j := by
  induction l with
  | nil =>
    intro i g j
    show (none : Option α) = if i = j then Option.map g none else none
    by_cases h : i = j <;> simp [h]
  | cons x t ih =>
    intro i g j
    cases i with
    | zero =>
      cases j with
      | zero => rfl
      | succ n => simp [updAt, getAt]
    | succ m =>
      cases j with
      | zero => simp [updAt, getAt]
      | succ n =>
        show getAt (updAt t m g) n = _
        rw [ih m g n]
        by_cases h : m = n <;> simp [h, getAt]

/-- Indexing past the end yields nothing. -/
theorem getAt_len (l : List α) : ∀ j, l.length ≤ j → getAt l j = none := by
  induction l with
  | nil => intro j _; rfl
  | cons x t ih =>
    intro j hj
    cases j with
    | zero => simp at hj
    | succ n => exact ih n (by simpa using hj)

/-- Lists agreeing at every index are equal. -/
theorem getAt_ext (l1 : List α) : ∀ l2 : List α, (∀ j, getAt l1 j = getAt l2 j) → l1 = l2 := by
  induction l1 with
  | nil =>
    intro l2 h
    cases l2 with
    | nil => rfl
    | cons y s =>
      have h0 := h 0
      simp [getAt] at h0
  | cons x t ih =>
    intro l2 h
    cases l2 with
    | nil =>
      have h0 := h 0
      simp [getAt] at h0
    | cons y s =>
      have h0 := h 0
      have hx : x = y := by
        have : some x = some y := h0
        exact Option.some.inj this
      rw [hx, ih s fun j => h (j + 1)]

/-- Folding a run's settlement events updates exactly the children whose
index occurs among the events, each with its own outcome. -/
theorem foldApply_get (evs : List (Nat × Except JsError (Option (List RawFlag))))
    (f : Nat → Except JsError (Option (List RawFlag))) :
    ∀ g : List ChildState, (evs.map Prod.fst).Nodup → (∀ e ∈ evs, e.2 = f e.1) →
      ∀ j, getAt (evs.foldl applyEvt g) j =
        if j ∈ evs.map Prod.fst then (getAt g j).map (fun c => childGetData c (f j))
        else getAt g j := by
  induction evs with
  | nil => intro g _ _ j; simp
  | cons e t ih =>
    intro g hnd hval j
    obtain ⟨i, r⟩ := e
    have hir : r = f i := hval (i, r) (List.mem_cons_self _ _)
    have hnds : i ∉ t.map Prod.fst ∧ (t.map Prod.fst).Nodup :=
      List.nodup_cons.mp (by simpa using hnd)
    rw [List.foldl_cons,
      ih (applyEvt g (i, r)) hnds.2 (fun e he => hval e (List.mem_cons_of_mem _ he)) j]
    have hupd : getAt (applyEvt g (i, r)) j =
        if i = j then (getAt g j).map (fun c => childGetData c r) else getAt g j :=
      getAt_updAt g i _ j
    simp only [List.map_cons, List.mem_cons]
    by_cases hjt : j ∈ t.map Prod.fst
    · have hij : ¬ (i = j) := fun he => hnds.1 (he ▸ hjt)
      rw [if_pos hjt, hupd, if_neg hij, if_pos (Or.inr hjt)]
    · rw [if_neg hjt, hupd]
      by_cases hij : i = j
      · subst hij
        rw [if_pos rfl, if_pos (Or.inl rfl), hir]
      · rw [if_neg hij, if_neg (by push_neg; exact ⟨fun he => hij he.symm, hjt⟩)]

/-! Claim theorems. -/

/-- C2: across every sequence of unit-failure deliveries, the parent holds
at most one synthetic error flag — none until the first failure, exactly
one from then on — that flag keeps the marker header, and extending the
delivery sequence only ever extends its body (the flag is never removed). -/
theorem C2_single_synthetic_error_flag (evts : List (List JStr)) :
    (runParent evts).existingFlag.length
      = (if (evts.all fun rs => rs.isEmpty) = true then 0 else 1)
    ∧ (∀ f ∈ (runParent evts).existingFlag, f.header = str "Component Error")
    ∧ (∀ more, begWith (aggBody (runParent evts)) (aggBody (runParent (evts ++ more))) = true) := by
  have hinv := parentFold_empty evts parentInit rfl
  refine ⟨?_, ?_, ?_⟩
  · rcases hinv with ⟨ha, he⟩ | ⟨ha, b, hb⟩
    · rw [show runParent evts = parentFold parentInit evts from rfl, he, ha]
      rfl
    · rw [show runParent evts = parentFold parentInit evts from rfl, hb, ha]
      simp
  · intro f hf
    rcases hinv with ⟨ha, he⟩ | ⟨ha, b, hb⟩
    · rw [show runParent evts = parentFold parentInit evts from rfl, he] at hf
      simp at hf
    · rw [show runParent evts = parentFold parentInit evts from rfl, hb] at hf
      have hfe : f = errAcc b := by simpa using hf
      rw [hfe]
      exact errAcc_header b
  · intro more
    have hsplit : runParent (evts ++ more) = parentFold (runParent evts) more := by
      show parentFold parentInit (evts ++ more) = _
      unfold parentFold
      rw [List.foldl_append]
      rfl
    rcases hinv with ⟨ha, he⟩ | ⟨ha, b, hb⟩
    · have hagg : aggBody (runParent evts) = [] := by
        unfold aggBody
        rw [show runParent evts = parentFold parentInit evts from rfl, he]
      rw [hagg]
      rfl
    · obtain ⟨b2, hb2, hw⟩ := parentFold_acc more (runParent evts) b (by exact hb)
      have h1 : aggBody (runParent evts) = b := by
        unfold aggBody
        rw [show runParent evts = parentFold parentInit evts from rfl, hb]
        rfl
      have h2 : aggBody (runParent (evts ++ more)) = b2 := by
        unfold aggBody
        rw [hsplit, hb2]
        rfl
      rw [h1, h2]
      exact hw

/-- C2 witness: a concrete delivery leaves a marker-headed flag. -/
theorem C2_single_synthetic_error_flag_witness :
    errDelivery (str "A") ∈ (runParent [[str "A"]]).existingFlag
    ∧ (errDelivery (str "A")).header = str "Component Error" :=
  ⟨by decide,
   (C2_single_synthetic_error_flag [[str "A"]]).2.1 (errDelivery (str "A")) (by decide)⟩

/-- C1 counterexample: delivering the reasons "A", "B", "A" leaves the body
"A\nB\nA" — the repeated reason "A" appears twice and the body has three
newline-separated entries for two distinct reasons, refuting the claimed
set semantics of the coalesced body. -/
theorem C1_counterexample :
    (runParent [[str "A"], [str "B"], [str "A"]]).existingFlag.map
        (fun f => acceptFlag.jsShow f.body) = [str "A\nB\nA"]
    ∧ ((splitNL (str "A\nB\nA")).filter (fun e => e = str "A")).length = 2
    ∧ (splitNL (str "A\nB\nA")).length = 3 :=
  ⟨by decide, by decide, by decide⟩

/-- C1 (amended): the coalesced body appends each incoming failure reason
unless it equals the entire accumulated body; hence any number of failures
carrying one identical reason leave it exactly once, and failures carrying
pairwise-distinct newline-free reasons leave exactly those entries,
newline-joined in arrival order — but a reason repeated after a different
reason has intervened is appended again, so the body is not an
order-independent set of reasons. -/
theorem C1_amended_coalesced_body :
    (∀ (r : JStr) (n : Nat),
      (runParent (List.replicate n [r])).existingFlag.map (fun f => acceptFlag.jsShow f.body)
        = if n = 0 then [] else [r])
    ∧ (∀ rs : List JStr, rs.Nodup → (∀ x ∈ rs, '\n' ∉ x) →
      (runParent (rs.map fun r => [r])).existingFlag.map (fun f => acceptFlag.jsShow f.body)
        = if rs = [] then [] else [joinNL rs]) := by
  constructor
  · intro r n
    cases n with
    | zero => rfl
    | succ k =>
      rw [if_neg (Nat.succ_ne_zero k)]
      have step : runParent (List.replicate (k + 1) [r]) =
          parentFold (handleChildRecordFlags parentInit [errDelivery r]) (List.replicate k [r]) := rfl
      rw [step, handleChild_cons parentInit (errDelivery r) []]
      have hfold : [errDelivery r].foldl acceptFlag parentInit =
          { parentInit with existingFlag := [errAcc r] } := by
        rw [List.foldl_cons, List.foldl_nil, acceptFlag_empty rfl, errDelivery_eq]
      rw [hfold]
      have hsame := parentFold_same k r
        { { parentInit with existingFlag := [errAcc r] } with haveErrors := true } (by exact rfl)
      rw [hsame]
      rfl
  · intro rs hnd hnl
    cases rs with
    | nil => rfl
    | cons r t =>
      rw [if_neg (by simp)]
      have step : runParent ((r :: t).map fun r => [r]) =
          parentFold (handleChildRecordFlags parentInit [errDelivery r]) (t.map fun r => [r]) := rfl
      rw [step, handleChild_cons parentInit (errDelivery r) []]
      have hfold : [errDelivery r].foldl acceptFlag parentInit =
          { parentInit with existingFlag := [errAcc r] } := by
        rw [List.foldl_cons, List.foldl_nil, acceptFlag_empty rfl, errDelivery_eq]
      rw [hfold]
      have happ : ([r] : List JStr) ++ t = r :: t := rfl
      have hrun := parentFold_distinct t [r]
        { { parentInit with existingFlag := [errAcc r] } with haveErrors := true }
        (by simp) (by rw [happ]; exact hnd) (by rw [happ]; exact hnl) (by exact rfl)
      rw [happ] at hrun
      rw [hrun]
      rfl

/-- C1 witness for the amended claim: three identical reasons coalesce to
one entry; two distinct reasons coalesce to their newline join. -/
theorem C1_amended_coalesced_body_witness :
    ((runParent (List.replicate 3 [str "A"])).existingFlag.map (fun f => acceptFlag.jsShow f.body)
      = if (3 : Nat) = 0 then [] else [str "A"])
    ∧ ((runParent ([str "A", str "B"].map fun r => [r])).existingFlag.map
        (fun f => acceptFlag.jsShow f.body)
      = if ([str "A", str "B"] : List JStr) = [] then [] else [joinNL [str "A", str "B"]]) :=
  ⟨C1_amended_coalesced_body.1 (str "A") 3,
   C1_amended_coalesced_body.2 [str "A", str "B"] (by decide) (by decide)⟩

/-- C3: when the top-level catalog/shared-data fetch rejects, the run
spawns no child units (so no computation is ever invoked), yields zero
flags, and raises exactly one standalone error toast distinct from the
flag list. -/
theorem C3_top_level_failure (e : JsError)
    (results : Nat → Except JsError (Option (List RawFlag))) :
    (orchRun (.error e) results).2 = []
    ∧ (orchRun (.error e) results).1.toasts = [errorToast e]
    ∧ (orchRun (.error e) results).1.existingFlag = []
    ∧ (orchRun (.error e) results).1.listOfActiveMdt = []
    ∧ (orchRun (.error e) results).1.haveFlags = false :=
  ⟨rfl, rfl, rfl, rfl, rfl⟩

/-- C4 counterexample: a computation resolving with an absent (null) flag
list takes the error path — the TypeError thrown on reading its length is
caught and raises an error toast — instead of being treated as a success. -/
theorem C4_counterexample :
    (childRun none (some (str "rec")) (some mdt0) (.ok none)).toasts
        = [errorToast { outputErr := none, bodyMsg := none }]
    ∧ (childRun none (some (str "rec")) (some mdt0) (.ok none)).toasts ≠ []
    ∧ (childRun none (some (str "rec")) (some mdt0) (.ok none)).listOfRecordFlags = []
    ∧ (childRun none (some (str "rec")) (some mdt0) (.ok none)).loading = false :=
  ⟨by decide, by decide, by decide, by decide⟩

/-- C4 (amended): a computation resolving with an empty flag list is
treated as success — no flag appended, no error event dispatched, no toast,
loading cleared.  A computation resolving with an absent (null) list also
appends no flag, dispatches no error event, and clears loading, but it is
routed through the catch handler: the TypeError thrown on reading the
length of the absent list raises one error toast, so it is not treated as
a success. -/
theorem C4_amended_empty_vs_absent (e : Option AugFlag) (p : Payload) (m : Mdt) :
    ((childRun e (some p) (some m) (.ok (some []))).listOfRecordFlags = []
      ∧ (childRun e (some p) (some m) (.ok (some []))).errEvents = []
      ∧ (childRun e (some p) (some m) (.ok (some []))).toasts = []
      ∧ (childRun e (some p) (some m) (.ok (some []))).loading = false)
    ∧ ((childRun e (some p) (some m) (.ok none)).listOfRecordFlags = []
      ∧ (childRun e (some p) (some m) (.ok none)).errEvents = []
      ∧ (childRun e (some p) (some m) (.ok none)).toasts
          = [errorToast { outputErr := none, bodyMsg := none }]
      ∧ (childRun e (some p) (some m) (.ok none)).loading = false) :=
  ⟨⟨rfl, rfl, rfl, rfl⟩, ⟨rfl, rfl, rfl, rfl⟩⟩

/-- C5: a successful run performs exactly one catalog+shared-data fetch,
and every spawned child passes that one shared payload unchanged to its
single Apex computation invocation — no child performs a shared-data fetch
of its own. -/
theorem C5_single_shared_fetch (r : CatalogResult)
    (results : Nat → Except JsError (Option (List RawFlag)))
    (_h : 1 < r.fetchers.length) :
    (orchRun (.ok r) results).1.providerCalls = 1
    ∧ ((orchRun (.ok r) results).2.map fun c => c.fetchCalls)
        = r.fetchers.map fun m => [(r.sharedData, m)] := by
  constructor
  · rfl
  · show (((withIdx 0 (spawnChildren (parentGetData parentInit (.ok r)))).map fun ic =>
      childRunOn ic.2 (results ic.1)).map fun c => c.fetchCalls) = _
    have hsp : spawnChildren (parentGetData parentInit (.ok r)) =
        r.fetchers.map fun m => childInit none (some r.sharedData) (some m) := rfl
    rw [hsp]
    exact spawn_fetch r.fetchers r.sharedData results 0

/-- C5 witness: a concrete two-unit run fetches once and forwards the
payload to both children. -/
theorem C5_single_shared_fetch_witness :
    (1 < r0.fetchers.length)
    ∧ (orchRun (.ok r0) resultsW).1.providerCalls = 1
    ∧ ((orchRun (.ok r0) resultsW).2.map fun c => c.fetchCalls)
        = r0.fetchers.map fun m => [(r0.sharedData, m)] :=
  ⟨by decide, (C5_single_shared_fetch r0 resultsW (by decide)).1,
   (C5_single_shared_fetch r0 resultsW (by decide)).2⟩

/-- C6: a child's loading indicator is true at creation and false after
every completion path — computation resolved (with flags, an empty or
absent list, or error-routed flags), promise rejected, or connected
without the inputs needed to run a computation — and no completion path
sets it back to true. -/
theorem C6_loading_lifecycle :
    (∀ (e : Option AugFlag) (rec : Option Payload) (mdt : Option Mdt),
      (childInit e rec mdt).loading = true)
    ∧ (∀ (e : Option AugFlag) (rec : Option Payload) (mdt : Option Mdt)
        (res : Except JsError (Option (List RawFlag))),
      (childRun e rec mdt res).loading = false) := by
  constructor
  · intro e rec mdt
    rfl
  · intro e rec mdt res
    cases rec with
    | some r =>
      cases mdt with
      | some m =>
        cases res with
        | error er => rfl
        | ok data =>
          cases data with
          | none => rfl
          | some d => rfl
      | none => cases e <;> rfl
    | none =>
      cases mdt with
      | some m => cases e <;> rfl
      | none => cases e <;> rfl

/-- C7 counterexample: a failure delivered in the first run survives a
Refresh — after the refresh resolves, the parent still holds the stale
coalesced error flag even though the new run delivered no failures, so the
aggregate does not reflect only the newest run's outcomes. -/
theorem C7_counterexample :
    (parentRunEvts [.childErr [errDelivery (str "A")], .refresh (.ok r0)]).existingFlag
        = [errAcc (str "A")]
    ∧ (parentRunEvts [.childErr [errDelivery (str "A")], .refresh (.ok r0)]).existingFlag ≠ []
    ∧ (parentRunEvts [.childErr [errDelivery (str "A")], .refresh (.ok r0)]).listOfActiveMdt
        = r0.fetchers :=
  ⟨by decide, by decide, by decide⟩

/-- C7 (amended): a Refresh re-invokes the data fetch — on success it
replaces the unit list and the shared record, so newly spawned children
belong to the new run — but outcomes carry no run identifier, and the
coalesced error aggregate and `haveErrors` persist unchanged across the
refresh, so the aggregate can still reflect a superseded run's failures. -/
theorem C7_amended_refresh_keeps_errors (st : ParentState)
    (res : Except JsError CatalogResult) :
    (parentStep st (.refresh res)).existingFlag = st.existingFlag
    ∧ (parentStep st (.refresh res)).haveErrors = st.haveErrors
    ∧ (∀ r, res = .ok r →
        (parentStep st (.refresh res)).listOfActiveMdt = r.fetchers
        ∧ (parentStep st (.refresh res)).record = some r.sharedData) := by
  refine ⟨?_, ?_, ?_⟩
  · cases res <;> rfl
  · cases res <;> rfl
  · intro r hr
    subst hr
    exact ⟨rfl, rfl⟩

/-- C7 witness for the amended claim, at a concrete refresh. -/
theorem C7_amended_refresh_keeps_errors_witness :
    (parentStep parentInit (.refresh (.ok r0))).existingFlag = parentInit.existingFlag
    ∧ (parentStep parentInit (.refresh (.ok r0))).listOfActiveMdt = r0.fetchers :=
  ⟨(C7_amended_refresh_keeps_errors parentInit (.ok r0)).1,
   ((C7_amended_refresh_keeps_errors parentInit (.ok r0)).2.2 r0 rfl).1⟩

/-- C10: a child connected without both its shared record and its metadata
configuration set invokes no computation at all; it renders exactly one
deep copy of its `errorRecordFlag` input when that is set and nothing
otherwise, and in both cases its loading indicator ends false. -/
theorem C10_no_inputs_no_computation (e : Option AugFlag) (rec : Option Payload)
    (mdt : Option Mdt) (res : Except JsError (Option (List RawFlag)))
    (h : ¬(rec.isSome = true ∧ mdt.isSome = true)) :
    (childRun e rec mdt res).fetchCalls = []
    ∧ (childRun e rec mdt res).listOfRecordFlags = (e.map deepCopy).toList
    ∧ (childRun e rec mdt res).errEvents = []
    ∧ (childRun e rec mdt res).toasts = []
    ∧ (childRun e rec mdt res).loading = false := by
  cases rec with
  | some r =>
    cases mdt with
    | some m => exact absurd ⟨rfl, rfl⟩ h
    | none => cases e <;> exact ⟨rfl, rfl, rfl, rfl, rfl⟩
  | none =>
    cases mdt with
    | some m => cases e <;> exact ⟨rfl, rfl, rfl, rfl, rfl⟩
    | none => cases e <;> exact ⟨rfl, rfl, rfl, rfl, rfl⟩

/-- C10 witness at a concrete input-less child. -/
theorem C10_no_inputs_no_computation_witness :
    (¬((none : Option Payload).isSome = true ∧ (some mdt0).isSome = true))
    ∧ (childRun (some flag0) none (some mdt0) (.ok none)).fetchCalls = []
    ∧ (childRun (some flag0) none (some mdt0) (.ok none)).listOfRecordFlags
        = ((some flag0).map deepCopy).toList :=
  ⟨by decide,
   (C10_no_inputs_no_computation (some flag0) none (some mdt0) (.ok none) (by decide)).1,
   (C10_no_inputs_no_computation (some flag0) none (some mdt0) (.ok none) (by decide)).2.1⟩

/-- C8: the final states of the dispatched children — hence the rendered
flag sequence, each child rendering only its own non-error flags — are
independent of the order in which unit completions arrive: for any
duplicate-free delivery covering each unit's outcome, the result equals
the canonical per-unit assembly in catalog order (the unit list being
sorted ascending by order key with ties by unit identifier). -/
theorem C8_completion_order_independence (units : List Mdt) (p : Payload)
    (f : Nat → Except JsError (Option (List RawFlag)))
    (evs : List (Nat × Except JsError (Option (List RawFlag))))
    (_hsorted : unitsSorted units = true)
    (hnd : (evs.map Prod.fst).Nodup)
    (hcov : ∀ j, j < units.length → (j, f j) ∈ evs)
    (hval : ∀ e ∈ evs, e.2 = f e.1) :
    evs.foldl applyEvt (initG p units)
      = (withIdx 0 units).map (fun im => childGetData (pendingChild p im.2) (f im.1))
    ∧ rendered (evs.foldl applyEvt (initG p units))
      = rendered ((withIdx 0 units).map fun im => childGetData (pendingChild p im.2) (f im.1)) := by
  have hmain : evs.foldl applyEvt (initG p units)
      = (withIdx 0 units).map (fun im => childGetData (pendingChild p im.2) (f im.1)) := by
    apply getAt_ext
    intro j
    rw [foldApply_get evs f (initG p units) hnd hval j]
    have hrhs : getAt ((withIdx 0 units).map fun im => childGetData (pendingChild p im.2) (f im.1)) j
        = (getAt units j).map fun m => childGetData (pendingChild p m) (f j) := by
      rw [getAt_map, getAt_withIdx]
      cases getAt units j with
      | none => rfl
      | some m =>
        show some _ = some _
        rw [Nat.zero_add]
    have hlhs : getAt (initG p units) j = (getAt units j).map fun m => pendingChild p m := by
      unfold initG
      rw [getAt_map]
    by_cases hj : j < units.length
    · rw [if_pos (List.mem_map.mpr ⟨(j, f j), hcov j hj, rfl⟩), hrhs, hlhs]
      cases getAt units j with
      | none => rfl
      | some m => rfl
    · have hnone : getAt units j = none := getAt_len units j (by omega)
      rw [hrhs, hlhs, hnone]
      by_cases hmem : j ∈ evs.map Prod.fst
      · rw [if_pos hmem]
        rfl
      · rw [if_neg hmem]
        rfl
  exact ⟨hmain, by rw [hmain]⟩

/-- C8 witness: two units settled in reverse order produce the canonical
catalog-order result. -/
theorem C8_completion_order_independence_witness :
    unitsSorted [mdt0, mdt1] = true
    ∧ ([((1 : Nat), resultsW 1), (0, resultsW 0)].map Prod.fst).Nodup
    ∧ [((1 : Nat), resultsW 1), (0, resultsW 0)].foldl applyEvt
        (initG (str "sharedRecord") [mdt0, mdt1])
      = (withIdx 0 [mdt0, mdt1]).map fun im =>
          childGetData (pendingChild (str "sharedRecord") im.2) (resultsW im.1) :=
  ⟨by decide, by decide,
   (C8_completion_order_independence [mdt0, mdt1] (str "sharedRecord") resultsW
      [(1, resultsW 1), (0, resultsW 0)] (by decide) (by decide) (by decide) (by decide)).1⟩

/-- C9: the child's handler classifies a value as a failure exactly when
its JSON serialization contains "Component Error": the rendered list gains
exactly the augmentations of the marker-free values in data order, the
error list gains exactly the marker values, each marker value dispatches
one errorreceive event whose payload is the entire error list accumulated
so far, every kept flag decorates a marker-free value and every
error-routed flag a marker-bearing one, and a value whose header contains
the marker always serializes with the marker — so a successful flag
mentioning it is withheld from the rendered list. -/
theorem C9_marker_classification (st : ChildState) (i : Nat) (data : List RawFlag) :
    (flagsLoop st i data).listOfRecordFlags = st.listOfRecordFlags ++ keptFlags i data
    ∧ (flagsLoop st i data).list = st.list ++ errFlags i data
    ∧ (flagsLoop st i data).errEvents = st.errEvents ++ evtsSpec st.list (errFlags i data)
    ∧ (∀ f ∈ keptFlags i data, hasSub ce (jsonRaw (stripFlag f)) = false)
    ∧ (∀ f ∈ errFlags i data, hasSub ce (jsonRaw (stripFlag f)) = true)
    ∧ (∀ v : RawFlag, hasSub ce v.header = true → hasSub ce (jsonRaw v) = true) :=
  ⟨flagsLoop_kept data st i, flagsLoop_list data st i, flagsLoop_evts data st i,
   keptFlags_strip data i, errFlags_strip data i,
   fun v hv => hasSub_jsonRaw_of_header v hv⟩

/-- C9 witness: on a concrete batch, the ordinary flag is kept, the flag
whose header merely mentions the marker is error-routed, and header
containment implies serialization containment. -/
theorem C9_marker_classification_witness :
    (mkFlag vWarn 0 ∈ keptFlags 0 [vWarn, vTricky]
      ∧ hasSub ce (jsonRaw (stripFlag (mkFlag vWarn 0))) = false)
    ∧ (mkFlag vTricky 1 ∈ errFlags 0 [vWarn, vTricky]
      ∧ hasSub ce (jsonRaw (stripFlag (mkFlag vTricky 1))) = true)
    ∧ (hasSub ce vTricky.header = true ∧ hasSub ce (jsonRaw vTricky) = true) :=
  ⟨⟨by decide,
    (C9_marker_classification (childInit none none none) 0 [vWarn, vTricky]).2.2.2.1
      (mkFlag vWarn 0) (by decide)⟩,
   ⟨by decide,
    (C9_marker_classification (childInit none none none) 0 [vWarn, vTricky]).2.2.2.2.1
      (mkFlag vTricky 1) (by decide)⟩,
   ⟨by decide,
    (C9_marker_classification (childInit none none none) 0 [vWarn, vTricky]).2.2.2.2.2
      vTricky (by decide)⟩⟩

end RecordFlags
